import Mathlib

/-!
Shallow embedding of the flexible-eth chain archiver (src/flexibleeth/src/sync/mod.rs)
and confirmation-rule evaluator (src/flexibleeth/src/confrule/mod.rs).

The embedded key-value store is a record of partial maps, one per key family of the
store schema.  Both pipelines additionally return a trace of the store accesses and
API requests they perform, so that frame properties (no writes, no requests) are
statable.  Fallible operations (`.expect`, `assert!`, propagated errors) are modelled
with `Except String`.
-/

namespace FlexEth

/-- A 32-byte root rendered as a hex string (data.rs `Root`). -/
abbrev Root := String

/-- Modelled from the spec: utils.rs constant `SLOTS_PER_EPOCH`.  Scenario S1 of the
spec places epoch boundaries at slots 0, 32, 64, fixing the value 32. -/
def SLOTS_PER_EPOCH : Nat := 32

/-- The all-zero sentinel root, literal from confrule/mod.rs line 137. -/
def ZERO_ROOT : Root := "0x0000000000000000000000000000000000000000000000000000000000000000"

/-- Modelled from the spec: data.rs constant `HEADER_GENESIS_ROOT`, the distinguished
root of the genesis block.  Its concrete value is opaque; it differs from `ZERO_ROOT`. -/
def HEADER_GENESIS_ROOT : Root := "0xheadergenesisroot"

/-- Modelled from the spec: utils.rs `slot_to_epoch(s) = s / SLOTS_PER_EPOCH`. -/
def slot_to_epoch (s : Nat) : Nat := s / SLOTS_PER_EPOCH

/-- Modelled from the spec: utils.rs `epoch_to_slot(e) = e * SLOTS_PER_EPOCH`. -/
def epoch_to_slot (e : Nat) : Nat := e * SLOTS_PER_EPOCH

/-- Modelled from the spec: utils.rs `is_epoch_boundary_slot`. -/
def is_epoch_boundary_slot (s : Nat) : Bool := s % SLOTS_PER_EPOCH == 0

/-- Modelled from the spec: utils.rs `most_recent_epoch_boundary_slot_for_slot`. -/
def most_recent_epoch_boundary_slot_for_slot (s : Nat) : Nat :=
  epoch_to_slot (slot_to_epoch s)

/-- A checkpoint `(epoch, root)` (data.rs `Checkpoint`, shape per spec §3). -/
structure Checkpoint where
  epoch : Nat
  root : Root
deriving DecidableEq, Repr

/-- An attestation carried by a block (shape per spec §3). -/
structure Attestation where
  slot_committee : Nat
  committee_index : Nat
  aggregation_bitfield : List Bool
  target : Checkpoint
deriving DecidableEq, Repr

/-- A beacon block (data.rs `Block`, shape per spec §3). -/
structure Block where
  slot : Nat
  proposer_index : Nat
  parent_root : Root
  state_root : Root
  attestations : List Attestation
deriving DecidableEq, Repr

/-- A committee assignment (data.rs `CommitteeAssignment`, shape per spec §3). -/
structure CommitteeAssignment where
  slot : Nat
  index : Nat
  validators : List Nat
deriving DecidableEq, Repr

/-- Modelled from the spec: confrule/rule.rs `ConfirmationRuleState` carries a quorum
fraction and the confirmed tip (root and slot).  The quorum is modelled as a rational. -/
structure RuleState where
  quorum : Rat
  tip_blkroot : Root
  tip_slot : Nat
deriving DecidableEq, Repr

/-- Modelled from the spec: rule.rs `get_tip_blkroot`. -/
def RuleState.get_tip_blkroot (r : RuleState) : Root := r.tip_blkroot

/-- Modelled from the spec: rule.rs `update_tip` sets the confirmed tip. -/
def RuleState.update_tip (r : RuleState) (blkroot : Root) (slot : Nat) : RuleState :=
  { r with tip_blkroot := blkroot, tip_slot := slot }

/-- A `LEDGER t={slot} {rule}` record printed to stdout by the evaluator. -/
structure Ledger where
  t : Nat
  state : RuleState
deriving DecidableEq, Repr

/-- The store key space (the string keys of the RocksDB schema, made structural). -/
inductive Key where
  | block_slot (s : Nat)
  | block_root (r : Root)
  | ebb (e : Nat)
  | slot_synched (s : Nat)
  | epoch_state_synched (e : Nat)
  | state_finality (r : Root)
  | state_committees (r : Root)
  | chain (r : Root)
  | sync_progress
deriving DecidableEq, Repr

/-- A traced effect: a store read, a store write, or an HTTP API request. -/
inductive Ev where
  | dbRead (k : Key)
  | dbWrite (k : Key)
  | api
deriving DecidableEq, Repr

/-- The persistent key-value store, one partial map per key family. -/
structure Store where
  blockBySlot : Nat → Option Root
  blockByRoot : Root → Option Block
  ebbSourceSlot : Nat → Option Nat
  slotSynched : Nat → Option Bool
  epochStateSynched : Nat → Option Bool
  stateFinality : Root → Option (Checkpoint × Checkpoint × Checkpoint)
  stateCommittees : Root → Option (List CommitteeAssignment)
  chain : Root → Option (List Root)
  syncProgress : Option Nat

/-- The store of a freshly created database: every key absent. -/
def emptyStore : Store :=
  ⟨fun _ => none, fun _ => none, fun _ => none, fun _ => none, fun _ => none,
   fun _ => none, fun _ => none, fun _ => none, none⟩

/-- Write `block_{s} ← root` (a slot-keyed entry). -/
def Store.putBlockBySlot (st : Store) (s : Nat) (r : Root) : Store :=
  { st with blockBySlot := fun s' => if s' = s then some r else st.blockBySlot s' }

/-- Write `block_{r} ← blk` (a root-keyed entry). -/
def Store.putBlockByRoot (st : Store) (r : Root) (b : Block) : Store :=
  { st with blockByRoot := fun r' => if r' = r then some b else st.blockByRoot r' }

/-- Write `ebb_{e}_source_slot ← s`. -/
def Store.putEbb (st : Store) (e : Nat) (s : Nat) : Store :=
  { st with ebbSourceSlot := fun e' => if e' = e then some s else st.ebbSourceSlot e' }

/-- Write the `slot_{s}_synched` marker. -/
def Store.putSlotSynched (st : Store) (s : Nat) : Store :=
  { st with slotSynched := fun s' => if s' = s then some true else st.slotSynched s' }

/-- Write the `epoch_{e}_state_synched` marker. -/
def Store.putEpochStateSynched (st : Store) (e : Nat) : Store :=
  { st with epochStateSynched := fun e' => if e' = e then some true else st.epochStateSynched e' }

/-- Write `state_{r}_finality_checkpoints`. -/
def Store.putStateFinality (st : Store) (r : Root)
    (c : Checkpoint × Checkpoint × Checkpoint) : Store :=
  { st with stateFinality := fun r' => if r' = r then some c else st.stateFinality r' }

/-- Write `state_{r}_committees`. -/
def Store.putStateCommittees (st : Store) (r : Root) (cs : List CommitteeAssignment) : Store :=
  { st with stateCommittees := fun r' => if r' = r then some cs else st.stateCommittees r' }

/-- Modelled from the spec: the consensus-API adapter (sync/api.rs, contracts in §4.2),
as a deterministic oracle.  `blockroot_by_slot` returns `none` for an empty slot. -/
structure Api where
  blockroot_by_slot : Nat → Option Root
  block_by_blockroot : Root → Option Block
  stateroot_by_slot : Nat → Root
  finality_checkpoints_by_slot : Nat → Checkpoint × Checkpoint × Checkpoint
  committees_by_slot : Nat → List CommitteeAssignment

/-- The archiver loop state: the store, `last_nonempty_slot`, and the trace so far. -/
structure SyncSt where
  store : Store
  last_nonempty_slot : Option Nat
  trace : List Ev

/-- The state-syncing block of the archiver (sync/mod.rs lines 140-192): guarded by the
`epoch_{e}_state_synched` marker, it bonds the by-slot state root to the block's state
root, persists finality checkpoints and committees, re-asserts the bond, and sets the
marker.  Returns the new store and the events performed. -/
def syncStatePart (api : Api) (slot : Nat) (blk : Block) (st : Store) :
    Except String (Store × List Ev) :=
  let ep := slot_to_epoch slot
  if (st.epochStateSynched ep).isSome then
    .ok (st, [Ev.dbRead (Key.epoch_state_synched ep)])
  else if api.stateroot_by_slot slot ≠ blk.state_root then
    .error "assertion failed: tmp_state_root == blk.state_root"
  else
    let st1 := st.putStateFinality blk.state_root (api.finality_checkpoints_by_slot slot)
    let st2 := st1.putStateCommittees blk.state_root (api.committees_by_slot slot)
    if api.stateroot_by_slot slot ≠ blk.state_root then
      .error "assertion failed: tmp_state_root == blk.state_root"
    else
      .ok (st2.putEpochStateSynched ep,
        [Ev.dbRead (Key.epoch_state_synched ep), Ev.api, Ev.api,
         Ev.dbWrite (Key.state_finality blk.state_root), Ev.api,
         Ev.dbWrite (Key.state_committees blk.state_root), Ev.api,
         Ev.dbWrite (Key.epoch_state_synched ep)])

/-- The `ebb_{e}_source_slot` write performed when a non-empty slot is an epoch
boundary (sync/mod.rs lines 89-92). -/
def ebbWriteNonempty (st : Store) (slot : Nat) : Store × List Ev :=
  if is_epoch_boundary_slot slot then
    (st.putEbb (slot_to_epoch slot) slot, [Ev.dbWrite (Key.ebb (slot_to_epoch slot))])
  else (st, [])

/-- The `ebb_{e}_source_slot` backfill performed when an empty slot is an epoch
boundary and `last_nonempty_slot` is set (sync/mod.rs lines 96-99). -/
def ebbWriteEmpty (st : Store) (slot : Nat) (last : Option Nat) : Store × List Ev :=
  if is_epoch_boundary_slot slot then
    match last with
    | some m =>
      (st.putEbb (slot_to_epoch slot) m, [Ev.dbWrite (Key.ebb (slot_to_epoch slot))])
    | none => (st, [])
  else (st, [])

/-- One iteration of the archiver's slot loop (sync/mod.rs lines 74-199).  Skips slots
whose `slot_{s}_synched` marker is set; otherwise fetches the canonical block root,
persists `block_{s}` and (at epoch boundaries) `ebb_{e}_source_slot`, fetches and
persists the block, runs the state-sync block, and sets the slot marker.  On an empty
slot it backfills the boundary via `last_nonempty_slot` and sets the marker. -/
def syncSlot (api : Api) (slot : Nat) (s : SyncSt) : Except String SyncSt :=
  if (s.store.slotSynched slot).isSome then
    .ok ⟨s.store, s.last_nonempty_slot, s.trace ++ [Ev.dbRead (Key.slot_synched slot)]⟩
  else
    match api.blockroot_by_slot slot with
    | some blk_root =>
      let stebb := ebbWriteNonempty (s.store.putBlockBySlot slot blk_root) slot
      match api.block_by_blockroot blk_root with
      | none => .error "Block not found"
      | some blk =>
        let st3 := stebb.1.putBlockByRoot blk_root blk
        match syncStatePart api slot blk st3 with
        | .error e => .error e
        | .ok (st4, evS) =>
          .ok ⟨st4.putSlotSynched slot, some slot,
            s.trace ++ [Ev.dbRead (Key.slot_synched slot), Ev.api,
              Ev.dbWrite (Key.block_slot slot)] ++ stebb.2 ++
              [Ev.api, Ev.dbWrite (Key.block_root blk_root)] ++ evS ++
              [Ev.dbWrite (Key.slot_synched slot)]⟩
    | none =>
      let stebb := ebbWriteEmpty s.store slot s.last_nonempty_slot
      .ok ⟨stebb.1.putSlotSynched slot, s.last_nonempty_slot,
        s.trace ++ [Ev.dbRead (Key.slot_synched slot), Ev.api] ++ stebb.2 ++
          [Ev.dbWrite (Key.slot_synched slot)]⟩

/-- The archiver's slot loop over a list of slots. -/
def syncSlots (api : Api) : List Nat → SyncSt → Except String SyncSt
  | [], s => .ok s
  | slot :: rest, s =>
    match syncSlot api slot s with
    | .error e => .error e
    | .ok s' => syncSlots api rest s'

/-- Cap `max_slot` at `now_slot - gap` (sync/mod.rs lines 40-48; `gap` stands for
`GAP_LATEST_SLOT_NOW_SLOT_CANONICAL_CHAIN_STABILITY`). -/
def capMax (gap now maxs : Nat) : Nat :=
  if maxs > now - gap then now - gap else maxs

/-- The fully coerced upper bound: capped, then moved down to an epoch boundary
(sync/mod.rs lines 40-57; identically confrule/mod.rs lines 24-41). -/
def coercedMax (gap now maxs : Nat) : Nat :=
  let m := capMax gap now maxs
  if m ≠ most_recent_epoch_boundary_slot_for_slot m then
    most_recent_epoch_boundary_slot_for_slot m
  else m

/-- The coerced lower bound: moved down to an epoch boundary (sync/mod.rs lines 58-67). -/
def coercedMin (mins : Nat) : Nat :=
  if mins ≠ most_recent_epoch_boundary_slot_for_slot mins then
    most_recent_epoch_boundary_slot_for_slot mins
  else mins

/-- The slots iterated by the archiver: `coercedMin .. coercedMax + 1` half-open,
after `max_slot += 1` (sync/mod.rs line 69). -/
def syncSlotsList (gap now mins maxs : Nat) : List Nat :=
  List.range' (coercedMin mins) (coercedMax gap now maxs + 1 - coercedMin mins)

/-- Result of an archiver run: the final store, the trace of effects, and whether the
`max_slot < min_slot` error was logged (sync/mod.rs lines 32-36 log and continue). -/
structure SyncResult where
  store : Store
  trace : List Ev
  logged_range_error : Bool

/-- The archiver entry point (sync/mod.rs `main`): coerce the bounds, then run the
slot loop with `last_nonempty_slot` starting at `None`. -/
def syncMain (api : Api) (gap now mins maxs : Nat) (st : Store) :
    Except String SyncResult :=
  match syncSlots api (syncSlotsList gap now mins maxs) ⟨st, none, []⟩ with
  | .error e => .error e
  | .ok s => .ok ⟨s.store, s.trace, decide (maxs < mins)⟩

/-- The type of the confirmation predicate `count_votes_for_confirmation`
(confrule/rule.rs, not part of the sources under analysis): the evaluator loop is
polymorphic over anything with this signature, matching the call at
confrule/mod.rs line 157. -/
abbrev VotePredicate :=
  RuleState → Nat → Nat → Root → List CommitteeAssignment → List Root → List Block → Bool

/-- Look up each block root's `block_{r}` entry (confrule/mod.rs lines 118-125),
recording a read per root and failing with the `.expect` message on absence. -/
def blocksLookup (st : Store) : List Root → List Ev × Except String (List Block)
  | [] => ([], .ok [])
  | r :: rs =>
    match st.blockByRoot r with
    | none => ([Ev.dbRead (Key.block_root r)], .error "Block not found")
    | some b =>
      let rec0 := blocksLookup st rs
      (Ev.dbRead (Key.block_root r) :: rec0.1, rec0.2.map (fun bs => b :: bs))

/-- The per-epoch loop over the rule states (confrule/mod.rs lines 156-169): when the
confirmation predicate fires, read `chain_{tip_old}`, assert it is a prefix of
`chain_tip_new`, update the tip, and emit a `LEDGER` record. -/
def rulesLoop (cvote : VotePredicate) (st : Store) (slot_em1 slot_e : Nat)
    (blkroot_em1 : Root) (committees : List CommitteeAssignment) (blkroots : List Root)
    (blks : List Block) (chain_tip_new : List Root) (cproot : Root) (cpslot : Nat) :
    List RuleState → List Ev × List Ledger × Except String (List RuleState)
  | [] => ([], [], .ok [])
  | ru :: rest =>
    if cvote ru slot_em1 slot_e blkroot_em1 committees blkroots blks then
      match st.chain ru.get_tip_blkroot with
      | none =>
        ([Ev.dbRead (Key.chain ru.get_tip_blkroot)], [],
         .error "Chain of block-roots for tip_old not found")
      | some chain_tip_old =>
        if chain_tip_old.isPrefixOf chain_tip_new then
          let ru' := ru.update_tip cproot cpslot
          let rec0 := rulesLoop cvote st slot_em1 slot_e blkroot_em1 committees blkroots
            blks chain_tip_new cproot cpslot rest
          (Ev.dbRead (Key.chain ru.get_tip_blkroot) :: rec0.1,
           Ledger.mk slot_e ru' :: rec0.2.1, (rec0.2.2).map (fun rs => ru' :: rs))
        else
          ([Ev.dbRead (Key.chain ru.get_tip_blkroot)], [],
           .error "assertion failed: is_prefix_of(chain_tip_old, chain_tip_new)")
    else
      let rec0 := rulesLoop cvote st slot_em1 slot_e blkroot_em1 committees blkroots
        blks chain_tip_new cproot cpslot rest
      (rec0.1, rec0.2.1, (rec0.2.2).map (fun rs => ru :: rs))

/-- One epoch of the evaluator (confrule/mod.rs lines 65-170): read the two bracketing
epoch-boundary block roots (skipping the epoch if either is absent), the previous
boundary block, both chains (asserting the prefix relation), the committees, the chain
segment's blocks, the finality checkpoints (normalizing the all-zero sentinel to
`HEADER_GENESIS_ROOT`), the target block and its chain, then run the rules loop. -/
def confEpoch (cvote : VotePredicate) (st : Store) (epoch : Nat)
    (rules : List RuleState) : List Ev × List Ledger × Except String (List RuleState) :=
  let slot_e := epoch_to_slot epoch
  let slot_em1 := epoch_to_slot (epoch - 1)
  match st.blockBySlot slot_e with
  | none => ([Ev.dbRead (Key.block_slot slot_e)], [], .ok rules)
  | some blkroot_e =>
    match st.blockBySlot slot_em1 with
    | none =>
      ([Ev.dbRead (Key.block_slot slot_e), Ev.dbRead (Key.block_slot slot_em1)], [],
       .ok rules)
    | some blkroot_em1 =>
      let tr0 := [Ev.dbRead (Key.block_slot slot_e), Ev.dbRead (Key.block_slot slot_em1),
        Ev.dbRead (Key.block_root blkroot_em1)]
      match st.blockByRoot blkroot_em1 with
      | none => (tr0, [], .error "Block for blkroot_em1 not found")
      | some blk_em1 =>
        let tr1 := tr0 ++ [Ev.dbRead (Key.chain blkroot_e)]
        match st.chain blkroot_e with
        | none => (tr1, [], .error "Chain of block-roots for blkroot_e not found")
        | some chain_e =>
          let tr2 := tr1 ++ [Ev.dbRead (Key.chain blkroot_em1)]
          match st.chain blkroot_em1 with
          | none => (tr2, [], .error "Chain of block-roots for blkroot_em1 not found")
          | some chain_em1 =>
            if chain_em1.isPrefixOf chain_e then
              let tr3 := tr2 ++ [Ev.dbRead (Key.state_committees blk_em1.state_root)]
              match st.stateCommittees blk_em1.state_root with
              | none => (tr3, [], .error "Committees not found")
              | some committees =>
                let blkroots := chain_e.drop (chain_em1.length - 1)
                let bl := blocksLookup st blkroots
                let tr4 := tr3 ++ bl.1
                match bl.2 with
                | .error e => (tr4, [], .error e)
                | .ok blks =>
                  let tr5 := tr4 ++ [Ev.dbRead (Key.state_finality blk_em1.state_root)]
                  match st.stateFinality blk_em1.state_root with
                  | none => (tr5, [], .error "Finality checkpoints not found")
                  | some (_cpP, _cpJ, cpF) =>
                    let cproot := if cpF.root = ZERO_ROOT then HEADER_GENESIS_ROOT
                      else cpF.root
                    let tr6 := tr5 ++ [Ev.dbRead (Key.block_root cproot)]
                    match st.blockByRoot cproot with
                    | none => (tr6, [], .error "Block for cp_finalized_blk not found")
                    | some cpblk =>
                      let tr7 := tr6 ++ [Ev.dbRead (Key.chain cproot)]
                      match st.chain cproot with
                      | none =>
                        (tr7, [],
                         .error "Chain of block-roots for cp_finalized_blkroot not found")
                      | some chain_tip_new =>
                        let rl := rulesLoop cvote st slot_em1 slot_e blkroot_em1
                          committees blkroots blks chain_tip_new cproot cpblk.slot rules
                        (tr7 ++ rl.1, rl.2.1, rl.2.2)
            else (tr2, [], .error "assertion failed: is_prefix_of(chain_em1, chain_e)")

/-- The evaluator's epoch loop (confrule/mod.rs line 65): process epochs in order,
stopping at the first fatal epoch, threading the rule states. -/
def epochsLoop (cvote : VotePredicate) (st : Store) :
    List Nat → List RuleState → List Ev × List Ledger × Except String (List RuleState)
  | [], rules => ([], [], .ok rules)
  | e :: es, rules =>
    let c := confEpoch cvote st e rules
    match c.2.2 with
    | .error msg => (c.1, c.2.1, .error msg)
    | .ok rules' =>
      let r := epochsLoop cvote st es rules'
      (c.1 ++ r.1, c.2.1 ++ r.2.1, r.2.2)

/-- Result of an evaluator run: trace, emitted `LEDGER` records, and the outcome. -/
structure ConfResult where
  trace : List Ev
  ledger : List Ledger
  result : Except String Unit
deriving Repr

/-- The evaluator entry point (confrule/mod.rs `main`): coerce `max_slot`, read
`sync_progress` (absent means 0) and refuse to start when it is below the coerced
`max_slot`; otherwise instantiate one rule state per quorum (emitting the initial
`LEDGER t=0` records) and run epochs `1 ..= slot_to_epoch max_slot`. -/
def confMain (cvote : VotePredicate) (st : Store) (quorums : List Rat)
    (gap now maxs : Nat) : ConfResult :=
  let m := coercedMax gap now maxs
  let last_synced_slot := (st.syncProgress).getD 0
  if last_synced_slot < m then
    ⟨[Ev.dbRead Key.sync_progress], [], .error "Sync is not complete"⟩
  else
    let rules0 := quorums.map (fun q => RuleState.mk q HEADER_GENESIS_ROOT 0)
    let led0 := rules0.map (fun r => Ledger.mk 0 r)
    let r := epochsLoop cvote st (List.range' 1 (slot_to_epoch m)) rules0
    ⟨Ev.dbRead Key.sync_progress :: r.1, led0 ++ r.2.1, (r.2.2).map (fun _ => ())⟩

/-- A distinct root per slot, used by the concrete API oracles below. -/
def mkRoot (s : Nat) : Root := "0xr" ++ toString s

/-- A concrete oracle with every slot non-empty; each block's state root equals its
block root so the archiver's state-root bond assertions hold. -/
def apiA : Api :=
  ⟨fun s => some (mkRoot s),
   fun r => some (Block.mk 0 0 ZERO_ROOT r []),
   fun s => mkRoot s,
   fun _ => (Checkpoint.mk 0 ZERO_ROOT, Checkpoint.mk 0 ZERO_ROOT, Checkpoint.mk 0 ZERO_ROOT),
   fun _ => []⟩

/-- A concrete oracle where slots 0..31 are non-empty and every slot from 32 on is
empty (so the epoch-1 boundary slot 32 is an empty epoch-boundary slot). -/
def apiB : Api :=
  ⟨fun s => if s < 32 then some (mkRoot s) else none,
   fun r => some (Block.mk 0 0 ZERO_ROOT r []),
   fun s => mkRoot s,
   fun _ => (Checkpoint.mk 0 ZERO_ROOT, Checkpoint.mk 0 ZERO_ROOT, Checkpoint.mk 0 ZERO_ROOT),
   fun _ => []⟩

/-- A fresh archiver run over slots 0..=64 with every slot non-empty (scenario S1 of
the spec, the input named by claim C1). -/
def run65 : Except String SyncResult := syncMain apiA 0 1000000 0 64 emptyStore

/-- The store left behind by `run65` (the error branch is not taken; see `c1` below). -/
def st65 : Store :=
  match run65 with
  | .ok r => r.store
  | .error _ => emptyStore

/-- Root-to-slot consistency: every `block_{s}` entry has its `block_{r}` entry. -/
def BlockConsistent (st : Store) : Prop :=
  ∀ s r, st.blockBySlot s = some r → (st.blockByRoot r).isSome = true

/-- Stores reachable from a fresh database by successful archiver runs. -/
inductive Produced : Store → Prop
  | empty : Produced emptyStore
  | step (api : Api) (gap now mins maxs : Nat) (st : Store) (r : SyncResult) :
      Produced st → syncMain api gap now mins maxs st = .ok r → Produced r.store

/-- The most recent slot `≤ k` that the oracle reports as non-empty. -/
def lastNonemptyUpTo (api : Api) : Nat → Option Nat
  | 0 => if (api.blockroot_by_slot 0).isSome then some 0 else none
  | k + 1 =>
    if (api.blockroot_by_slot (k + 1)).isSome then some (k + 1) else lastNonemptyUpTo api k

/-- The most recent slot `< k` that the oracle reports as non-empty. -/
def lastNonemptyBelow (api : Api) : Nat → Option Nat
  | 0 => none
  | k + 1 => lastNonemptyUpTo api k

/-- The loop invariant of a fresh archiver run from the empty store over slots
`0, 1, ..., n-1`: `last_nonempty_slot` tracks the most recent non-empty slot seen,
every epoch whose boundary slot was processed has its `ebb_{e}_source_slot` entry equal
to the most recent non-empty slot at or before the boundary, and nothing later has
been written. -/
def SyncInv (api : Api) (n : Nat) (s : SyncSt) : Prop :=
  s.last_nonempty_slot = lastNonemptyBelow api n ∧
  (∀ e, epoch_to_slot e < n →
    s.store.ebbSourceSlot e = lastNonemptyUpTo api (epoch_to_slot e)) ∧
  (∀ e, n ≤ epoch_to_slot e → s.store.ebbSourceSlot e = none) ∧
  (∀ s2, n ≤ s2 → s.store.slotSynched s2 = none)

/-- Chain/slot soundness of a store: along `chain_{r}` prefixes, block slots are
monotone (spec invariants I4/I5: `chain_{r}` lists the canonical ancestry of `r`). -/
def chainSlotMono (st : Store) : Prop :=
  ∀ r1 r2 c1 c2 b1 b2, st.chain r1 = some c1 → st.chain r2 = some c2 →
    c1.isPrefixOf c2 = true → st.blockByRoot r1 = some b1 → st.blockByRoot r2 = some b2 →
    b1.slot ≤ b2.slot

/-- A rule state is grounded in the store: its tip block exists and its recorded
`tip_slot` does not exceed the tip block's slot. -/
def RuleOk (st : Store) (ru : RuleState) : Prop :=
  ∃ b, st.blockByRoot ru.tip_blkroot = some b ∧ ru.tip_slot ≤ b.slot

/-- The reads an evaluator epoch performs before skipping on a missing epoch-boundary
block root (confrule/mod.rs lines 73-86). -/
def skipTrace (st : Store) (e : Nat) : List Ev :=
  match st.blockBySlot (epoch_to_slot e) with
  | none => [Ev.dbRead (Key.block_slot (epoch_to_slot e))]
  | some _ =>
    [Ev.dbRead (Key.block_slot (epoch_to_slot e)),
     Ev.dbRead (Key.block_slot (epoch_to_slot (e - 1)))]

/-- The genesis block of the concrete well-formed evaluator store. -/
def blkG : Block := Block.mk 0 0 ZERO_ROOT "0xsg" []

/-- The epoch-1 boundary block of the concrete well-formed evaluator store. -/
def blkA : Block := Block.mk 32 0 HEADER_GENESIS_ROOT "0xsa" []

/-- A concrete well-formed store for evaluator epochs: blocks at slots 0 and 32, their
chains, committees and finality checkpoints (with the all-zero sentinel) present. -/
def stWF : Store :=
  ⟨fun s => if s = 0 then some HEADER_GENESIS_ROOT else if s = 32 then some "0xa" else none,
   fun r => if r = HEADER_GENESIS_ROOT then some blkG else if r = "0xa" then some blkA else none,
   fun _ => none,
   fun _ => none,
   fun _ => none,
   fun r => if r = "0xsg" then
      some (Checkpoint.mk 0 ZERO_ROOT, Checkpoint.mk 0 ZERO_ROOT, Checkpoint.mk 0 ZERO_ROOT)
    else none,
   fun r => if r = "0xsg" then some [] else none,
   fun r => if r = HEADER_GENESIS_ROOT then some [HEADER_GENESIS_ROOT]
    else if r = "0xa" then some [HEADER_GENESIS_ROOT, "0xa"] else none,
   some 64⟩

/-- A confirmation predicate that always fires. -/
def cvoteTrue : VotePredicate := fun _ _ _ _ _ _ _ => true

/-- One rule state at the genesis tip. -/
def rulesW : List RuleState := [RuleState.mk 1 HEADER_GENESIS_ROOT 0]

/-- The rule states after the epoch-1 evaluation on `stWF` (the target is the genesis
root again, so the update rewrites the same values). -/
def rulesW' : List RuleState := [RuleState.mk 1 HEADER_GENESIS_ROOT 0]

/-- The concrete epoch-1 evaluation on the well-formed store. -/
def confW : List Ev × List Ledger × Except String (List RuleState) :=
  confEpoch cvoteTrue stWF 1 rulesW

/-- A store whose `sync_progress` is 31, as in scenario S5 of the spec. -/
def stS5 : Store :=
  ⟨fun _ => none, fun _ => none, fun _ => none, fun _ => none, fun _ => none,
   fun _ => none, fun _ => none, fun _ => none, some 31⟩

/-- The result of a fresh archiver run over `[0, 32]` with every slot non-empty. -/
def resA : SyncResult :=
  match syncMain apiA 0 1000000 0 32 emptyStore with
  | .ok r => r
  | .error _ => SyncResult.mk emptyStore [] false

/-- The store produced by that run. -/
def stA : Store := resA.store

/-- The result of a fresh archiver run over `[0, 0]` (one slot). -/
def resC : SyncResult :=
  match syncMain apiA 0 1000000 0 0 emptyStore with
  | .ok r => r
  | .error _ => SyncResult.mk emptyStore [] false

/-- The store produced by that one-slot run. -/
def stC : Store := resC.store

/-- The result of a fresh archiver run over `[0, 32]` with slot 32 empty. -/
def resB : SyncResult :=
  match syncMain apiB 0 1000000 0 32 emptyStore with
  | .ok r => r
  | .error _ => SyncResult.mk emptyStore [] false

/-- The store of an archiver run over `[0, 32]` with `apiB` that crashed right before
processing slot 32: the slot loop (sync/mod.rs line 74) has completed the iterations
for slots `0, ..., 31` and nothing else. -/
def crashStore : Store :=
  match syncSlots apiB (List.range 32) ⟨emptyStore, none, []⟩ with
  | .ok s => s.store
  | .error _ => emptyStore

/-- Resuming the crashed run over the same range `[0, 32]`. -/
def runResume : Except String SyncResult := syncMain apiB 0 1000000 0 32 crashStore

/-- The store after the resumed run. -/
def stResume : Store :=
  match runResume with
  | .ok r => r.store
  | .error _ => emptyStore

/-! Projection lemmas for the store writes: each write changes exactly its own key
family, leaving every other field of the store untouched. -/

@[simp] theorem putBlockBySlot_blockBySlot (st : Store) (s : Nat) (r : Root) (s' : Nat) :
    (st.putBlockBySlot s r).blockBySlot s' = if s' = s then some r else st.blockBySlot s' := rfl
@[simp] theorem putBlockBySlot_blockByRoot (st : Store) (s : Nat) (r : Root) :
    (st.putBlockBySlot s r).blockByRoot = st.blockByRoot := rfl
@[simp] theorem putBlockBySlot_ebb (st : Store) (s : Nat) (r : Root) :
    (st.putBlockBySlot s r).ebbSourceSlot = st.ebbSourceSlot := rfl
@[simp] theorem putBlockBySlot_slotSynched (st : Store) (s : Nat) (r : Root) :
    (st.putBlockBySlot s r).slotSynched = st.slotSynched := rfl
@[simp] theorem putBlockBySlot_epochStateSynched (st : Store) (s : Nat) (r : Root) :
    (st.putBlockBySlot s r).epochStateSynched = st.epochStateSynched := rfl
@[simp] theorem putBlockBySlot_stateFinality (st : Store) (s : Nat) (r : Root) :
    (st.putBlockBySlot s r).stateFinality = st.stateFinality := rfl
@[simp] theorem putBlockBySlot_stateCommittees (st : Store) (s : Nat) (r : Root) :
    (st.putBlockBySlot s r).stateCommittees = st.stateCommittees := rfl
@[simp] theorem putBlockBySlot_chain (st : Store) (s : Nat) (r : Root) :
    (st.putBlockBySlot s r).chain = st.chain := rfl
@[simp] theorem putBlockBySlot_syncProgress (st : Store) (s : Nat) (r : Root) :
    (st.putBlockBySlot s r).syncProgress = st.syncProgress := rfl

@[simp] theorem putBlockByRoot_blockBySlot (st : Store) (r : Root) (b : Block) :
    (st.putBlockByRoot r b).blockBySlot = st.blockBySlot := rfl
@[simp] theorem putBlockByRoot_blockByRoot (st : Store) (r : Root) (b : Block) (r' : Root) :
    (st.putBlockByRoot r b).blockByRoot r' = if r' = r then some b else st.blockByRoot r' := rfl
@[simp] theorem putBlockByRoot_ebb (st : Store) (r : Root) (b : Block) :
    (st.putBlockByRoot r b).ebbSourceSlot = st.ebbSourceSlot := rfl
@[simp] theorem putBlockByRoot_slotSynched (st : Store) (r : Root) (b : Block) :
    (st.putBlockByRoot r b).slotSynched = st.slotSynched := rfl
@[simp] theorem putBlockByRoot_epochStateSynched (st : Store) (r : Root) (b : Block) :
    (st.putBlockByRoot r b).epochStateSynched = st.epochStateSynched := rfl
@[simp] theorem putBlockByRoot_stateFinality (st : Store) (r : Root) (b : Block) :
    (st.putBlockByRoot r b).stateFinality = st.stateFinality := rfl
@[simp] theorem putBlockByRoot_stateCommittees (st : Store) (r : Root) (b : Block) :
    (st.putBlockByRoot r b).stateCommittees = st.stateCommittees := rfl
@[simp] theorem putBlockByRoot_chain (st : Store) (r : Root) (b : Block) :
    (st.putBlockByRoot r b).chain = st.chain := rfl
@[simp] theorem putBlockByRoot_syncProgress (st : Store) (r : Root) (b : Block) :
    (st.putBlockByRoot r b).syncProgress = st.syncProgress := rfl

@[simp] theorem putEbb_blockBySlot (st : Store) (e s : Nat) :
    (st.putEbb e s).blockBySlot = st.blockBySlot := rfl
@[simp] theorem putEbb_blockByRoot (st : Store) (e s : Nat) :
    (st.putEbb e s).blockByRoot = st.blockByRoot := rfl
@[simp] theorem putEbb_ebb (st : Store) (e s : Nat) (e' : Nat) :
    (st.putEbb e s).ebbSourceSlot e' = if e' = e then some s else st.ebbSourceSlot e' := rfl
@[simp] theorem putEbb_slotSynched (st : Store) (e s : Nat) :
    (st.putEbb e s).slotSynched = st.slotSynched := rfl
@[simp] theorem putEbb_epochStateSynched (st : Store) (e s : Nat) :
    (st.putEbb e s).epochStateSynched = st.epochStateSynched := rfl
@[simp] theorem putEbb_stateFinality (st : Store) (e s : Nat) :
    (st.putEbb e s).stateFinality = st.stateFinality := rfl
@[simp] theorem putEbb_stateCommittees (st : Store) (e s : Nat) :
    (st.putEbb e s).stateCommittees = st.stateCommittees := rfl
@[simp] theorem putEbb_chain (st : Store) (e s : Nat) :
    (st.putEbb e s).chain = st.chain := rfl
@[simp] theorem putEbb_syncProgress (st : Store) (e s : Nat) :
    (st.putEbb e s).syncProgress = st.syncProgress := rfl

@[simp] theorem putSlotSynched_blockBySlot (st : Store) (s : Nat) :
    (st.putSlotSynched s).blockBySlot = st.blockBySlot := rfl
@[simp] theorem putSlotSynched_blockByRoot (st : Store) (s : Nat) :
    (st.putSlotSynched s).blockByRoot = st.blockByRoot := rfl
@[simp] theorem putSlotSynched_ebb (st : Store) (s : Nat) :
    (st.putSlotSynched s).ebbSourceSlot = st.ebbSourceSlot := rfl
@[simp] theorem putSlotSynched_slotSynched (st : Store) (s : Nat) (s' : Nat) :
    (st.putSlotSynched s).slotSynched s' = if s' = s then some true else st.slotSynched s' := rfl
@[simp] theorem putSlotSynched_epochStateSynched (st : Store) (s : Nat) :
    (st.putSlotSynched s).epochStateSynched = st.epochStateSynched := rfl
@[simp] theorem putSlotSynched_stateFinality (st : Store) (s : Nat) :
    (st.putSlotSynched s).stateFinality = st.stateFinality := rfl
@[simp] theorem putSlotSynched_stateCommittees (st : Store) (s : Nat) :
    (st.putSlotSynched s).stateCommittees = st.stateCommittees := rfl
@[simp] theorem putSlotSynched_chain (st : Store) (s : Nat) :
    (st.putSlotSynched s).chain = st.chain := rfl
@[simp] theorem putSlotSynched_syncProgress (st : Store) (s : Nat) :
    (st.putSlotSynched s).syncProgress = st.syncProgress := rfl

@[simp] theorem putEpochStateSynched_blockBySlot (st : Store) (e : Nat) :
    (st.putEpochStateSynched e).blockBySlot = st.blockBySlot := rfl
@[simp] theorem putEpochStateSynched_blockByRoot (st : Store) (e : Nat) :
    (st.putEpochStateSynched e).blockByRoot = st.blockByRoot := rfl
@[simp] theorem putEpochStateSynched_ebb (st : Store) (e : Nat) :
    (st.putEpochStateSynched e).ebbSourceSlot = st.ebbSourceSlot := rfl
@[simp] theorem putEpochStateSynched_slotSynched (st : Store) (e : Nat) :
    (st.putEpochStateSynched e).slotSynched = st.slotSynched := rfl
@[simp] theorem putEpochStateSynched_epochStateSynched (st : Store) (e : Nat) (e' : Nat) :
    (st.putEpochStateSynched e).epochStateSynched e' =
      if e' = e then some true else st.epochStateSynched e' := rfl
@[simp] theorem putEpochStateSynched_stateFinality (st : Store) (e : Nat) :
    (st.putEpochStateSynched e).stateFinality = st.stateFinality := rfl
@[simp] theorem putEpochStateSynched_stateCommittees (st : Store) (e : Nat) :
    (st.putEpochStateSynched e).stateCommittees = st.stateCommittees := rfl
@[simp] theorem putEpochStateSynched_chain (st : Store) (e : Nat) :
    (st.putEpochStateSynched e).chain = st.chain := rfl
@[simp] theorem putEpochStateSynched_syncProgress (st : Store) (e : Nat) :
    (st.putEpochStateSynched e).syncProgress = st.syncProgress := rfl

@[simp] theorem putStateFinality_blockBySlot (st : Store) (r : Root)
    (c : Checkpoint × Checkpoint × Checkpoint) :
    (st.putStateFinality r c).blockBySlot = st.blockBySlot := rfl
@[simp] theorem putStateFinality_blockByRoot (st : Store) (r : Root)
    (c : Checkpoint × Checkpoint × Checkpoint) :
    (st.putStateFinality r c).blockByRoot = st.blockByRoot := rfl
@[simp] theorem putStateFinality_ebb (st : Store) (r : Root)
    (c : Checkpoint × Checkpoint × Checkpoint) :
    (st.putStateFinality r c).ebbSourceSlot = st.ebbSourceSlot := rfl
@[simp] theorem putStateFinality_slotSynched (st : Store) (r : Root)
    (c : Checkpoint × Checkpoint × Checkpoint) :
    (st.putStateFinality r c).slotSynched = st.slotSynched := rfl
@[simp] theorem putStateFinality_epochStateSynched (st : Store) (r : Root)
    (c : Checkpoint × Checkpoint × Checkpoint) :
    (st.putStateFinality r c).epochStateSynched = st.epochStateSynched := rfl
@[simp] theorem putStateFinality_chain (st : Store) (r : Root)
    (c : Checkpoint × Checkpoint × Checkpoint) :
    (st.putStateFinality r c).chain = st.chain := rfl
@[simp] theorem putStateFinality_syncProgress (st : Store) (r : Root)
    (c : Checkpoint × Checkpoint × Checkpoint) :
    (st.putStateFinality r c).syncProgress = st.syncProgress := rfl

@[simp] theorem putStateCommittees_blockBySlot (st : Store) (r : Root)
    (cs : List CommitteeAssignment) :
    (st.putStateCommittees r cs).blockBySlot = st.blockBySlot := rfl
@[simp] theorem putStateCommittees_blockByRoot (st : Store) (r : Root)
    (cs : List CommitteeAssignment) :
    (st.putStateCommittees r cs).blockByRoot = st.blockByRoot := rfl
@[simp] theorem putStateCommittees_ebb (st : Store) (r : Root)
    (cs : List CommitteeAssignment) :
    (st.putStateCommittees r cs).ebbSourceSlot = st.ebbSourceSlot := rfl
@[simp] theorem putStateCommittees_slotSynched (st : Store) (r : Root)
    (cs : List CommitteeAssignment) :
    (st.putStateCommittees r cs).slotSynched = st.slotSynched := rfl
@[simp] theorem putStateCommittees_epochStateSynched (st : Store) (r : Root)
    (cs : List CommitteeAssignment) :
    (st.putStateCommittees r cs).epochStateSynched = st.epochStateSynched := rfl
@[simp] theorem putStateCommittees_chain (st : Store) (r : Root)
    (cs : List CommitteeAssignment) :
    (st.putStateCommittees r cs).chain = st.chain := rfl
@[simp] theorem putStateCommittees_syncProgress (st : Store) (r : Root)
    (cs : List CommitteeAssignment) :
    (st.putStateCommittees r cs).syncProgress = st.syncProgress := rfl

/-! Frame lemmas: the fields of the store the archiver components leave untouched. -/

theorem ebbWriteNonempty_frame (st : Store) (slot : Nat) :
    (ebbWriteNonempty st slot).1.blockBySlot = st.blockBySlot ∧
    (ebbWriteNonempty st slot).1.blockByRoot = st.blockByRoot ∧
    (ebbWriteNonempty st slot).1.slotSynched = st.slotSynched ∧
    (ebbWriteNonempty st slot).1.epochStateSynched = st.epochStateSynched ∧
    (ebbWriteNonempty st slot).1.chain = st.chain ∧
    (ebbWriteNonempty st slot).1.syncProgress = st.syncProgress := by
  unfold ebbWriteNonempty
  split <;> simp [Store.putEbb]

theorem ebbWriteEmpty_frame (st : Store) (slot : Nat) (last : Option Nat) :
    (ebbWriteEmpty st slot last).1.blockBySlot = st.blockBySlot ∧
    (ebbWriteEmpty st slot last).1.blockByRoot = st.blockByRoot ∧
    (ebbWriteEmpty st slot last).1.slotSynched = st.slotSynched ∧
    (ebbWriteEmpty st slot last).1.epochStateSynched = st.epochStateSynched ∧
    (ebbWriteEmpty st slot last).1.chain = st.chain ∧
    (ebbWriteEmpty st slot last).1.syncProgress = st.syncProgress := by
  unfold ebbWriteEmpty
  split
  · split <;> simp [Store.putEbb]
  · simp

theorem syncStatePart_frame {api : Api} {slot : Nat} {blk : Block} {st st' : Store}
    {evs : List Ev} (h : syncStatePart api slot blk st = .ok (st', evs)) :
    st'.blockBySlot = st.blockBySlot ∧ st'.blockByRoot = st.blockByRoot ∧
    st'.ebbSourceSlot = st.ebbSourceSlot ∧ st'.slotSynched = st.slotSynched ∧
    st'.chain = st.chain ∧ st'.syncProgress = st.syncProgress := by
  simp only [syncStatePart] at h
  split at h
  · simp only [Except.ok.injEq, Prod.mk.injEq] at h
    obtain ⟨h1, -⟩ := h
    subst h1
    exact ⟨rfl, rfl, rfl, rfl, rfl, rfl⟩
  · split at h
    · simp at h
    · simp only [Except.ok.injEq, Prod.mk.injEq] at h
      obtain ⟨h1, -⟩ := h
      subst h1
      simp

theorem syncSlot_chain_syncProgress {api : Api} {slot : Nat} {s s' : SyncSt}
    (h : syncSlot api slot s = .ok s') :
    s'.store.chain = s.store.chain ∧ s'.store.syncProgress = s.store.syncProgress := by
  simp only [syncSlot] at h
  split at h
  · simp only [Except.ok.injEq] at h
    subst h
    exact ⟨rfl, rfl⟩
  · split at h
    · split at h
      · simp at h
      · split at h
        · simp at h
        · rename_i st4 evS hstate
          simp only [Except.ok.injEq] at h
          subst h
          obtain ⟨-, -, -, -, hc, hp⟩ := syncStatePart_frame hstate
          constructor
          · simp only [putSlotSynched_chain]
            rw [hc, putBlockByRoot_chain, (ebbWriteNonempty_frame _ _).2.2.2.2.1,
              putBlockBySlot_chain]
          · simp only [putSlotSynched_syncProgress]
            rw [hp, putBlockByRoot_syncProgress, (ebbWriteNonempty_frame _ _).2.2.2.2.2,
              putBlockBySlot_syncProgress]
    · simp only [Except.ok.injEq] at h
      subst h
      refine ⟨?_, ?_⟩
      · simp only [putSlotSynched_chain]
        exact (ebbWriteEmpty_frame _ _ _).2.2.2.2.1
      · simp only [putSlotSynched_syncProgress]
        exact (ebbWriteEmpty_frame _ _ _).2.2.2.2.2

theorem syncSlots_chain_syncProgress {api : Api} {slots : List Nat} {s s' : SyncSt}
    (h : syncSlots api slots s = .ok s') :
    s'.store.chain = s.store.chain ∧ s'.store.syncProgress = s.store.syncProgress := by
  induction slots generalizing s with
  | nil =>
    unfold syncSlots at h
    simp only [Except.ok.injEq] at h
    subst h
    exact ⟨rfl, rfl⟩
  | cons x xs ih =>
    unfold syncSlots at h
    split at h
    · simp at h
    · rename_i s1 hx
      obtain ⟨hc1, hp1⟩ := syncSlot_chain_syncProgress hx
      obtain ⟨hc2, hp2⟩ := ih h
      exact ⟨hc2.trans hc1, hp2.trans hp1⟩

theorem ebbWriteNonempty_ebbField (st : Store) (slot : Nat) (e : Nat) :
    (ebbWriteNonempty st slot).1.ebbSourceSlot e =
      if is_epoch_boundary_slot slot = true ∧ e = slot_to_epoch slot then some slot
      else st.ebbSourceSlot e := by
  unfold ebbWriteNonempty
  split <;> rename_i hb
  · by_cases he : e = slot_to_epoch slot <;> simp [hb, he]
  · simp [hb]

theorem ebbWriteEmpty_ebbField (st : Store) (slot : Nat) (last : Option Nat) (e : Nat) :
    (ebbWriteEmpty st slot last).1.ebbSourceSlot e =
      if is_epoch_boundary_slot slot = true ∧ e = slot_to_epoch slot then
        (match last with
         | some m => some m
         | none => st.ebbSourceSlot e)
      else st.ebbSourceSlot e := by
  unfold ebbWriteEmpty
  split <;> rename_i hb
  · cases last with
    | some m => by_cases he : e = slot_to_epoch slot <;> simp [hb, he]
    | none => by_cases he : e = slot_to_epoch slot <;> simp [hb, he]
  · simp [hb]

/-- The skip branch: a slot whose idempotency marker is set is skipped after a single
marker read (sync/mod.rs lines 75-78). -/
theorem syncSlot_skip {api : Api} {slot : Nat} {s : SyncSt}
    (hm : (s.store.slotSynched slot).isSome = true) :
    syncSlot api slot s =
      .ok ⟨s.store, s.last_nonempty_slot, s.trace ++ [Ev.dbRead (Key.slot_synched slot)]⟩ := by
  simp [syncSlot, hm]

/-- Characterization of a non-skipped slot iteration: the marker of the processed slot
is set, `last_nonempty_slot` is updated exactly on non-empty slots, and the
`ebb_{e}_source_slot` entry of the slot's epoch is written according to the three
outcomes of the per-slot procedure. -/
theorem syncSlot_ok_fields {api : Api} {slot : Nat} {s s' : SyncSt}
    (hm : s.store.slotSynched slot = none) (h : syncSlot api slot s = .ok s') :
    (∀ s2, s'.store.slotSynched s2 =
      if s2 = slot then some true else s.store.slotSynched s2) ∧
    (s'.last_nonempty_slot =
      if (api.blockroot_by_slot slot).isSome then some slot else s.last_nonempty_slot) ∧
    (∀ e, s'.store.ebbSourceSlot e =
      if is_epoch_boundary_slot slot = true ∧ e = slot_to_epoch slot then
        (match api.blockroot_by_slot slot with
         | some _ => some slot
         | none =>
           match s.last_nonempty_slot with
           | some m => some m
           | none => s.store.ebbSourceSlot e)
      else s.store.ebbSourceSlot e) := by
  simp only [syncSlot, hm, Option.isSome_none, Bool.false_eq_true, if_false] at h
  split at h
  · rename_i blk_root hroot
    split at h
    · simp at h
    · split at h
      · simp at h
      · rename_i st4 evS hstate
        simp only [Except.ok.injEq] at h
        subst h
        obtain ⟨hbs, hbr, hebb, hss, -, -⟩ := syncStatePart_frame hstate
        refine ⟨?_, ?_, ?_⟩
        · intro s2
          simp [hss, (ebbWriteNonempty_frame _ _).2.2.1]
        · simp [hroot]
        · intro e
          simp only [putSlotSynched_ebb, hebb, putBlockByRoot_ebb,
            ebbWriteNonempty_ebbField, putBlockBySlot_ebb, hroot]
  · rename_i hroot
    simp only [Except.ok.injEq] at h
    subst h
    refine ⟨?_, ?_, ?_⟩
    · intro s2
      simp [(ebbWriteEmpty_frame _ _ _).2.2.1]
    · simp [hroot]
    · intro e
      simp only [putSlotSynched_ebb, ebbWriteEmpty_ebbField, hroot]

/-- The archiver never touches `chain_{r}` entries nor `sync_progress`. -/
theorem syncMain_chain_syncProgress {api : Api} {gap now mins maxs : Nat} {st : Store}
    {r : SyncResult} (h : syncMain api gap now mins maxs st = .ok r) :
    r.store.chain = st.chain ∧ r.store.syncProgress = st.syncProgress := by
  unfold syncMain at h
  split at h
  · simp at h
  · rename_i s hs
    simp only [Except.ok.injEq] at h
    subst h
    exact syncSlots_chain_syncProgress hs

/-- Splitting the slot loop: processing `l1 ++ l2` is processing `l1`, then `l2`. -/
theorem syncSlots_append (api : Api) (l1 l2 : List Nat) (s : SyncSt) :
    syncSlots api (l1 ++ l2) s =
      match syncSlots api l1 s with
      | .error e => .error e
      | .ok s' => syncSlots api l2 s' := by
  induction l1 generalizing s with
  | nil => simp [syncSlots]
  | cons x xs ih =>
    simp only [List.cons_append, syncSlots]
    cases syncSlot api x s with
    | error e => rfl
    | ok s1 => exact ih s1

/-- A run over slots whose markers are all set reads exactly those markers and
changes nothing. -/
theorem syncSlots_all_synched {api : Api} {slots : List Nat} {st : Store}
    {last : Option Nat} {tr : List Ev}
    (h : ∀ x ∈ slots, (st.slotSynched x).isSome = true) :
    syncSlots api slots ⟨st, last, tr⟩ =
      .ok ⟨st, last, tr ++ slots.map (fun x => Ev.dbRead (Key.slot_synched x))⟩ := by
  induction slots generalizing tr with
  | nil => simp [syncSlots]
  | cons x xs ih =>
    have hx : (st.slotSynched x).isSome = true := h x (by simp)
    rw [syncSlots, syncSlot_skip hx]
    dsimp only
    rw [ih (fun y hy => h y (List.mem_cons_of_mem x hy))]
    simp

theorem syncSlot_blockConsistent {api : Api} {slot : Nat} {s s' : SyncSt}
    (h : syncSlot api slot s = .ok s') (hb : BlockConsistent s.store) :
    BlockConsistent s'.store := by
  simp only [syncSlot] at h
  split at h
  · simp only [Except.ok.injEq] at h
    subst h
    exact hb
  · split at h
    · rename_i blk_root hroot
      split at h
      · simp at h
      · split at h
        · simp at h
        · rename_i st4 evS hstate
          simp only [Except.ok.injEq] at h
          subst h
          obtain ⟨hbs, hbr, -, -, -, -⟩ := syncStatePart_frame hstate
          intro s2 r2 hs2
          simp only [putSlotSynched_blockBySlot, hbs, putBlockByRoot_blockBySlot,
            (ebbWriteNonempty_frame _ _).1, putBlockBySlot_blockBySlot] at hs2
          simp only [putSlotSynched_blockByRoot, hbr, putBlockByRoot_blockByRoot,
            (ebbWriteNonempty_frame _ _).2.1, putBlockBySlot_blockByRoot]
          by_cases hr2 : r2 = blk_root
          · simp [hr2]
          · simp only [hr2, if_false]
            by_cases hs : s2 = slot
            · simp only [hs, if_true] at hs2
              exact absurd hs2.symm (by simpa using hr2)
            · simp only [hs, if_false] at hs2
              exact hb s2 r2 hs2
    · simp only [Except.ok.injEq] at h
      subst h
      intro s2 r2 hs2
      simp only [putSlotSynched_blockBySlot, (ebbWriteEmpty_frame _ _ _).1] at hs2
      simp only [putSlotSynched_blockByRoot, (ebbWriteEmpty_frame _ _ _).2.1]
      exact hb s2 r2 hs2

theorem syncSlots_blockConsistent {api : Api} {slots : List Nat} {s s' : SyncSt}
    (h : syncSlots api slots s = .ok s') (hb : BlockConsistent s.store) :
    BlockConsistent s'.store := by
  induction slots generalizing s with
  | nil =>
    unfold syncSlots at h
    simp only [Except.ok.injEq] at h
    subst h
    exact hb
  | cons x xs ih =>
    unfold syncSlots at h
    split at h
    · simp at h
    · rename_i s1 hx
      exact ih h (syncSlot_blockConsistent hx hb)

theorem syncMain_blockConsistent {api : Api} {gap now mins maxs : Nat} {st : Store}
    {r : SyncResult} (h : syncMain api gap now mins maxs st = .ok r)
    (hb : BlockConsistent st) : BlockConsistent r.store := by
  unfold syncMain at h
  split at h
  · simp at h
  · rename_i s hs
    simp only [Except.ok.injEq] at h
    subst h
    exact syncSlots_blockConsistent hs hb

/-- A store produced solely by the archiver contains no `chain_{r}` entry. -/
theorem produced_chain_none {st : Store} (h : Produced st) : ∀ r, st.chain r = none := by
  induction h with
  | empty => intro r; rfl
  | step api gap now mins maxs st0 r hp hrun ih =>
    intro rt
    rw [(syncMain_chain_syncProgress hrun).1]
    exact ih rt

/-- A store produced solely by the archiver has no `sync_progress` entry. -/
theorem produced_syncProgress_none {st : Store} (h : Produced st) : st.syncProgress = none := by
  induction h with
  | empty => rfl
  | step api gap now mins maxs st0 r hp hrun ih =>
    rw [(syncMain_chain_syncProgress hrun).2]
    exact ih

/-- A store produced solely by the archiver is root-to-slot consistent. -/
theorem produced_blockConsistent {st : Store} (h : Produced st) : BlockConsistent st := by
  induction h with
  | empty => intro s r hs; exact absurd hs (by simp [emptyStore])
  | step api gap now mins maxs st0 r hp hrun ih => exact syncMain_blockConsistent hrun ih

theorem lnu_eq (api : Api) (n : Nat) :
    lastNonemptyUpTo api n =
      if (api.blockroot_by_slot n).isSome then some n else lastNonemptyBelow api n := by
  cases n <;> simp [lastNonemptyUpTo, lastNonemptyBelow]

theorem lnu_le {api : Api} {n v : Nat} (h : lastNonemptyUpTo api n = some v) : v ≤ n := by
  induction n with
  | zero =>
    unfold lastNonemptyUpTo at h
    split at h
    · simp only [Option.some.injEq] at h
      omega
    · simp at h
  | succ k ih =>
    unfold lastNonemptyUpTo at h
    split at h
    · simp only [Option.some.injEq] at h
      omega
    · exact le_trans (ih h) (by omega)

theorem lnu_nonempty {api : Api} {n v : Nat} (h : lastNonemptyUpTo api n = some v) :
    (api.blockroot_by_slot v).isSome = true := by
  induction n with
  | zero =>
    unfold lastNonemptyUpTo at h
    split at h
    · simp only [Option.some.injEq] at h
      subst h
      assumption
    · simp at h
  | succ k ih =>
    unfold lastNonemptyUpTo at h
    split at h
    · simp only [Option.some.injEq] at h
      subst h
      assumption
    · exact ih h

theorem lnu_maximal {api : Api} {n v : Nat} (h : lastNonemptyUpTo api n = some v) :
    ∀ s2, v < s2 → s2 ≤ n → api.blockroot_by_slot s2 = none := by
  induction n with
  | zero =>
    intro s2 h1 h2
    unfold lastNonemptyUpTo at h
    split at h
    · simp only [Option.some.injEq] at h
      omega
    · simp at h
  | succ k ih =>
    intro s2 h1 h2
    unfold lastNonemptyUpTo at h
    split at h
    · simp only [Option.some.injEq] at h
      omega
    · rename_i hk
      rcases Nat.lt_or_ge s2 (k + 1) with hs | hs
      · exact ih h s2 h1 (by omega)
      · have : s2 = k + 1 := by omega
        subst this
        exact Option.not_isSome_iff_eq_none.mp hk

theorem lnu_of_exists {api : Api} {n : Nat}
    (h : ∃ s2, s2 ≤ n ∧ (api.blockroot_by_slot s2).isSome = true) :
    (lastNonemptyUpTo api n).isSome = true := by
  induction n with
  | zero =>
    obtain ⟨s2, hle, hne⟩ := h
    have : s2 = 0 := by omega
    subst this
    simp [lastNonemptyUpTo, hne]
  | succ k ih =>
    obtain ⟨s2, hle, hne⟩ := h
    unfold lastNonemptyUpTo
    split
    · simp
    · rename_i hk
      refine ih ⟨s2, ?_, hne⟩
      rcases Nat.lt_or_ge s2 (k + 1) with hs | hs
      · omega
      · have : s2 = k + 1 := by omega
        subst this
        exact absurd hne (by simpa using hk)

theorem boundary_epoch_to_slot {n : Nat} (hb : is_epoch_boundary_slot n = true) :
    epoch_to_slot (slot_to_epoch n) = n := by
  simp only [is_epoch_boundary_slot, beq_iff_eq] at hb
  simpa [epoch_to_slot, slot_to_epoch] using Nat.div_mul_cancel (Nat.dvd_of_mod_eq_zero hb)

theorem epoch_of_boundary {e n : Nat} (he : epoch_to_slot e = n) : slot_to_epoch n = e := by
  subst he
  simp [epoch_to_slot, slot_to_epoch, SLOTS_PER_EPOCH]

theorem syncInv_step {api : Api} {n : Nat} {s s' : SyncSt} (hi : SyncInv api n s)
    (h : syncSlot api n s = .ok s') : SyncInv api (n + 1) s' := by
  have hm : s.store.slotSynched n = none := hi.2.2.2 n le_rfl
  obtain ⟨hmark, hlast, hebb⟩ := syncSlot_ok_fields hm h
  refine ⟨?_, ?_, ?_, ?_⟩
  · rw [hlast, hi.1]
    show _ = lastNonemptyUpTo api n
    rw [lnu_eq]
  · intro e he
    rw [hebb e]
    rcases Nat.lt_or_ge (epoch_to_slot e) n with hlt | hge
    · have hcond : ¬(is_epoch_boundary_slot n = true ∧ e = slot_to_epoch n) := by
        rintro ⟨hb, rfl⟩
        rw [boundary_epoch_to_slot hb] at hlt
        omega
      rw [if_neg hcond]
      exact hi.2.1 e hlt
    · have hBn : epoch_to_slot e = n := by omega
      have hb : is_epoch_boundary_slot n = true := by
        rw [← hBn]
        simp [is_epoch_boundary_slot, epoch_to_slot, Nat.mul_mod_left]
      have hcond : is_epoch_boundary_slot n = true ∧ e = slot_to_epoch n :=
        ⟨hb, (epoch_of_boundary hBn).symm⟩
      rw [if_pos hcond, hBn, lnu_eq]
      cases happi : api.blockroot_by_slot n with
      | some r => simp
      | none =>
        simp only [Option.isSome_none, Bool.false_eq_true, if_false]
        cases hl : s.last_nonempty_slot with
        | some m =>
          have hlb : lastNonemptyBelow api n = some m := by rw [← hi.1, hl]
          rw [hlb]
        | none =>
          rw [hi.1] at hl
          rw [hl]
          exact hi.2.2.1 e hge
  · intro e he
    rw [hebb e]
    have hcond : ¬(is_epoch_boundary_slot n = true ∧ e = slot_to_epoch n) := by
      rintro ⟨hb, rfl⟩
      rw [boundary_epoch_to_slot hb] at he
      omega
    rw [if_neg hcond]
    exact hi.2.2.1 e (by omega)
  · intro s2 hs2
    rw [hmark s2, if_neg (by omega)]
    exact hi.2.2.2 s2 (by omega)

/-- The loop invariant holds after a fresh run over the slots `0, ..., n-1`. -/
theorem syncSlots_range_inv (api : Api) :
    ∀ n s', syncSlots api (List.range n) ⟨emptyStore, none, []⟩ = .ok s' →
      SyncInv api n s' := by
  intro n
  induction n with
  | zero =>
    intro s' h
    simp only [List.range_zero, syncSlots, Except.ok.injEq] at h
    subst h
    exact ⟨rfl, fun e he => by omega, fun e _ => rfl, fun s2 _ => rfl⟩
  | succ k ih =>
    intro s' h
    rw [List.range_succ, syncSlots_append] at h
    cases hmid : syncSlots api (List.range k) ⟨emptyStore, none, []⟩ with
    | error e => rw [hmid] at h; simp at h
    | ok smid =>
      rw [hmid] at h
      simp only [syncSlots] at h
      split at h
      · simp at h
      · rename_i s1 hstep
        simp only [syncSlots, Except.ok.injEq] at h
        subst h
        exact syncInv_step (ih smid hmid) hstep

/-- Pointwise characterization of the per-epoch rules loop: when it completes without
a fatal error, each rule is either untouched (its predicate returned false) or was
updated to the confirmation target after the prefix assertion on its old tip's chain
succeeded. -/
theorem rulesLoop_spec {cvote : VotePredicate} {st : Store} {slot_em1 slot_e : Nat}
    {blkroot_em1 : Root} {committees : List CommitteeAssignment} {blkroots : List Root}
    {blks : List Block} {chain_tip_new : List Root} {cproot : Root} {cpslot : Nat} :
    ∀ {rules : List RuleState} {tr : List Ev} {led : List Ledger} {rules' : List RuleState},
    rulesLoop cvote st slot_em1 slot_e blkroot_em1 committees blkroots blks chain_tip_new
      cproot cpslot rules = (tr, led, .ok rules') →
    rules'.length = rules.length ∧
    ∀ i (hi : i < rules.length) (hi' : i < rules'.length),
      (cvote (rules.get ⟨i, hi⟩) slot_em1 slot_e blkroot_em1 committees blkroots blks
          = false ∧
        rules'.get ⟨i, hi'⟩ = rules.get ⟨i, hi⟩) ∨
      (cvote (rules.get ⟨i, hi⟩) slot_em1 slot_e blkroot_em1 committees blkroots blks
          = true ∧
        ∃ cOld, st.chain (rules.get ⟨i, hi⟩).tip_blkroot = some cOld ∧
          cOld.isPrefixOf chain_tip_new = true ∧
          rules'.get ⟨i, hi'⟩ = (rules.get ⟨i, hi⟩).update_tip cproot cpslot) := by
  intro rules
  induction rules with
  | nil =>
    intro tr led rules' h
    simp only [rulesLoop, Prod.mk.injEq] at h
    obtain ⟨-, -, hres⟩ := h
    simp only [Except.ok.injEq] at hres
    subst hres
    exact ⟨rfl, fun i hi hi' => absurd hi (by simp)⟩
  | cons ru rest ih =>
    intro tr led rules' h
    simp only [rulesLoop] at h
    split at h
    · rename_i hcv
      split at h
      · simp only [Prod.mk.injEq] at h
        exact absurd h.2.2 (by simp)
      · rename_i chain_tip_old hchain
        split at h
        · rename_i hpref
          simp only [Prod.mk.injEq] at h
          obtain ⟨-, -, hres⟩ := h
          cases hR : (rulesLoop cvote st slot_em1 slot_e blkroot_em1 committees blkroots
              blks chain_tip_new cproot cpslot rest).2.2 with
          | error e => rw [hR] at hres; simp [Except.map] at hres
          | ok rest' =>
            rw [hR] at hres
            simp only [Except.map, Except.ok.injEq] at hres
            subst hres
            have heq : rulesLoop cvote st slot_em1 slot_e blkroot_em1 committees blkroots
                blks chain_tip_new cproot cpslot rest =
                ((rulesLoop cvote st slot_em1 slot_e blkroot_em1 committees blkroots
                  blks chain_tip_new cproot cpslot rest).1,
                 (rulesLoop cvote st slot_em1 slot_e blkroot_em1 committees blkroots
                  blks chain_tip_new cproot cpslot rest).2.1,
                 Except.ok rest') := by
              rw [← hR]
            obtain ⟨hlen, hpt⟩ := ih heq
            refine ⟨by simpa using hlen, ?_⟩
            intro i hi hi'
            cases i with
            | zero =>
              right
              exact ⟨hcv, chain_tip_old, hchain, hpref, rfl⟩
            | succ j =>
              have hj : j < rest.length := by simpa using hi
              have hj' : j < rest'.length := by simpa using hi'
              simpa using hpt j hj hj'
        · simp only [Prod.mk.injEq] at h
          exact absurd h.2.2 (by simp)
    · rename_i hcv
      simp only [Prod.mk.injEq] at h
      obtain ⟨-, -, hres⟩ := h
      cases hR : (rulesLoop cvote st slot_em1 slot_e blkroot_em1 committees blkroots
          blks chain_tip_new cproot cpslot rest).2.2 with
      | error e => rw [hR] at hres; simp [Except.map] at hres
      | ok rest' =>
        rw [hR] at hres
        simp only [Except.map, Except.ok.injEq] at hres
        subst hres
        have heq : rulesLoop cvote st slot_em1 slot_e blkroot_em1 committees blkroots
            blks chain_tip_new cproot cpslot rest =
            ((rulesLoop cvote st slot_em1 slot_e blkroot_em1 committees blkroots
              blks chain_tip_new cproot cpslot rest).1,
             (rulesLoop cvote st slot_em1 slot_e blkroot_em1 committees blkroots
              blks chain_tip_new cproot cpslot rest).2.1,
             Except.ok rest') := by
          rw [← hR]
        obtain ⟨hlen, hpt⟩ := ih heq
        refine ⟨by simpa using hlen, ?_⟩
        intro i hi hi'
        cases i with
        | zero =>
          left
          exact ⟨by simpa using hcv, rfl⟩
        | succ j =>
          have hj : j < rest.length := by simpa using hi
          have hj' : j < rest'.length := by simpa using hi'
          simpa using hpt j hj hj'

/-- Claim C6: for every rule state and every evaluator epoch in which the confirmation
predicate returns true, the evaluator asserts that the chain of the rule's current tip
is a prefix of the chain of the new finalized target before updating the tip; hence
(on a store whose chains are slot-monotone, with rule states grounded in the store)
each rule's `tip_blkroot` only advances along the canonical chain and its `tip_slot`
is non-decreasing. -/
theorem c6_rule_monotonicity {cvote : VotePredicate} {st : Store} {e : Nat}
    {rules : List RuleState} {tr : List Ev} {led : List Ledger} {rules' : List RuleState}
    (hmono : chainSlotMono st) (hok : ∀ ru ∈ rules, RuleOk st ru)
    (hrun : confEpoch cvote st e rules = (tr, led, .ok rules')) :
    rules'.length = rules.length ∧
    ∀ i (hi : i < rules.length) (hi' : i < rules'.length),
      (rules'.get ⟨i, hi'⟩ = rules.get ⟨i, hi⟩) ∨
      (∃ cOld cNew, st.chain ((rules.get ⟨i, hi⟩).tip_blkroot) = some cOld ∧
        st.chain ((rules'.get ⟨i, hi'⟩).tip_blkroot) = some cNew ∧
        cOld.isPrefixOf cNew = true ∧
        (rules.get ⟨i, hi⟩).tip_slot ≤ (rules'.get ⟨i, hi'⟩).tip_slot ∧
        RuleOk st (rules'.get ⟨i, hi'⟩)) := by
  simp only [confEpoch] at hrun
  split at hrun
  · simp only [Prod.mk.injEq, Except.ok.injEq] at hrun
    obtain ⟨-, -, hres⟩ := hrun
    subst hres
    exact ⟨rfl, fun i hi hi' => Or.inl rfl⟩
  · split at hrun
    · simp only [Prod.mk.injEq, Except.ok.injEq] at hrun
      obtain ⟨-, -, hres⟩ := hrun
      subst hres
      exact ⟨rfl, fun i hi hi' => Or.inl rfl⟩
    · rename_i blkroot_e hbe blkroot_em1 hbem1
      split at hrun
      · simp only [Prod.mk.injEq] at hrun
        exact absurd hrun.2.2 (by simp)
      · rename_i blk_em1 hblk
        split at hrun
        · simp only [Prod.mk.injEq] at hrun
          exact absurd hrun.2.2 (by simp)
        · rename_i chain_e hce
          split at hrun
          · simp only [Prod.mk.injEq] at hrun
            exact absurd hrun.2.2 (by simp)
          · rename_i chain_em1 hcem1
            split at hrun
            · rename_i hpre
              split at hrun
              · simp only [Prod.mk.injEq] at hrun
                exact absurd hrun.2.2 (by simp)
              · rename_i committees hcom
                split at hrun
                · simp only [Prod.mk.injEq] at hrun
                  exact absurd hrun.2.2 (by simp)
                · rename_i blks hblks
                  split at hrun
                  · simp only [Prod.mk.injEq] at hrun
                    exact absurd hrun.2.2 (by simp)
                  · rename_i cpP cpJ cpF hfin
                    split at hrun
                    · simp only [Prod.mk.injEq] at hrun
                      exact absurd hrun.2.2 (by simp)
                    · rename_i cpblk hcpblk
                      split at hrun
                      · simp only [Prod.mk.injEq] at hrun
                        exact absurd hrun.2.2 (by simp)
                      · rename_i chain_tip_new hctn
                        simp only [Prod.mk.injEq] at hrun
                        obtain ⟨-, -, hres⟩ := hrun
                        cases hR : (rulesLoop cvote st (epoch_to_slot (e - 1))
                            (epoch_to_slot e) blkroot_em1 committees
                            (chain_e.drop (chain_em1.length - 1)) blks chain_tip_new
                            (if cpF.root = ZERO_ROOT then HEADER_GENESIS_ROOT else cpF.root)
                            cpblk.slot rules).2.2 with
                        | error msg => rw [hR] at hres; simp at hres
                        | ok rl' =>
                          rw [hR] at hres
                          simp only [Except.ok.injEq] at hres
                          subst hres
                          have heq : rulesLoop cvote st (epoch_to_slot (e - 1))
                              (epoch_to_slot e) blkroot_em1 committees
                              (chain_e.drop (chain_em1.length - 1)) blks chain_tip_new
                              (if cpF.root = ZERO_ROOT then HEADER_GENESIS_ROOT
                               else cpF.root) cpblk.slot rules =
                              ((rulesLoop cvote st (epoch_to_slot (e - 1))
                                (epoch_to_slot e) blkroot_em1 committees
                                (chain_e.drop (chain_em1.length - 1)) blks chain_tip_new
                                (if cpF.root = ZERO_ROOT then HEADER_GENESIS_ROOT
                                 else cpF.root) cpblk.slot rules).1,
                               (rulesLoop cvote st (epoch_to_slot (e - 1))
                                (epoch_to_slot e) blkroot_em1 committees
                                (chain_e.drop (chain_em1.length - 1)) blks chain_tip_new
                                (if cpF.root = ZERO_ROOT then HEADER_GENESIS_ROOT
                                 else cpF.root) cpblk.slot rules).2.1,
                               Except.ok rl') := by
                            rw [← hR]
                          have hspec := rulesLoop_spec heq
                          obtain ⟨hlen, hpt⟩ := hspec
                          refine ⟨hlen, ?_⟩
                          intro i hi hi'
                          rcases hpt i hi hi' with ⟨-, hsame⟩ | ⟨-, cOld, hcold, hpref, hupd⟩
                          · exact Or.inl hsame
                          · right
                            obtain ⟨bOld, hbOld, hslot⟩ := hok _ (List.get_mem rules i hi)
                            refine ⟨cOld, chain_tip_new, hcold, ?_, hpref, ?_, ?_⟩
                            · rw [hupd]
                              exact hctn
                            · rw [hupd]
                              show _ ≤ cpblk.slot
                              exact le_trans hslot
                                (hmono _ _ _ _ _ _ hcold hctn hpref hbOld hcpblk)
                            · rw [hupd]
                              exact ⟨cpblk, hcpblk, le_refl _⟩
            · simp only [Prod.mk.injEq] at hrun
              exact absurd hrun.2.2 (by simp)

/-- Claim C8: for every evaluator epoch, if the finalized checkpoint root read from
`state_{blk_em1.state_root}_finality_checkpoints` equals the all-zero root, the
confirmation target root used for the target-block lookup, the chain lookup, and any
tip update is `HEADER_GENESIS_ROOT` instead; otherwise the checkpoint root is used
unchanged. -/
theorem c8_zero_root_sentinel {cvote : VotePredicate} {st : Store} {e : Nat}
    {rules : List RuleState} {tr : List Ev} {led : List Ledger} {rules' : List RuleState}
    {rE rEm1 : Root} {bEm1 : Block} {cpP cpJ cpF : Checkpoint}
    (h1 : st.blockBySlot (epoch_to_slot e) = some rE)
    (h2 : st.blockBySlot (epoch_to_slot (e - 1)) = some rEm1)
    (h3 : st.blockByRoot rEm1 = some bEm1)
    (h4 : st.stateFinality bEm1.state_root = some (cpP, cpJ, cpF))
    (hrun : confEpoch cvote st e rules = (tr, led, .ok rules')) :
    Ev.dbRead (Key.block_root
      (if cpF.root = ZERO_ROOT then HEADER_GENESIS_ROOT else cpF.root)) ∈ tr ∧
    Ev.dbRead (Key.chain
      (if cpF.root = ZERO_ROOT then HEADER_GENESIS_ROOT else cpF.root)) ∈ tr ∧
    ∀ i (hi : i < rules.length) (hi' : i < rules'.length),
      rules'.get ⟨i, hi'⟩ ≠ rules.get ⟨i, hi⟩ →
      (rules'.get ⟨i, hi'⟩).tip_blkroot =
        (if cpF.root = ZERO_ROOT then HEADER_GENESIS_ROOT else cpF.root) := by
  simp only [confEpoch, h1, h2, h3, h4] at hrun
  split at hrun
  · simp only [Prod.mk.injEq] at hrun
    exact absurd hrun.2.2 (by simp)
  · rename_i chain_e hce
    split at hrun
    · simp only [Prod.mk.injEq] at hrun
      exact absurd hrun.2.2 (by simp)
    · rename_i chain_em1 hcem1
      split at hrun
      · rename_i hpre
        split at hrun
        · simp only [Prod.mk.injEq] at hrun
          exact absurd hrun.2.2 (by simp)
        · rename_i committees hcom
          split at hrun
          · simp only [Prod.mk.injEq] at hrun
            exact absurd hrun.2.2 (by simp)
          · rename_i blks hblks
            split at hrun
            · simp only [Prod.mk.injEq] at hrun
              exact absurd hrun.2.2 (by simp)
            · rename_i cpblk hcpblk
              split at hrun
              · simp only [Prod.mk.injEq] at hrun
                exact absurd hrun.2.2 (by simp)
              · rename_i chain_tip_new hctn
                simp only [Prod.mk.injEq] at hrun
                obtain ⟨htr, -, hres⟩ := hrun
                cases hR : (rulesLoop cvote st (epoch_to_slot (e - 1)) (epoch_to_slot e)
                    rEm1 committees (chain_e.drop (chain_em1.length - 1)) blks
                    chain_tip_new
                    (if cpF.root = ZERO_ROOT then HEADER_GENESIS_ROOT else cpF.root)
                    cpblk.slot rules).2.2 with
                | error msg => rw [hR] at hres; simp at hres
                | ok rl' =>
                  rw [hR] at hres
                  simp only [Except.ok.injEq] at hres
                  subst hres
                  obtain ⟨hlen, hpt⟩ := rulesLoop_spec (by rw [← hR])
                  subst htr
                  refine ⟨by simp, by simp, ?_⟩
                  intro i hi hi' hne
                  rcases hpt i hi hi' with ⟨-, hsame⟩ | ⟨-, cOld, -, -, hupd⟩
                  · exact absurd hsame hne
                  · rw [hupd]
                    rfl
      · simp only [Prod.mk.injEq] at hrun
        exact absurd hrun.2.2 (by simp)

/-- Claim C7: if either epoch-boundary block root is absent, the evaluator performs no
further store reads for that epoch, updates no rule state, emits no LEDGER record, and
continues with the next epoch rather than terminating. -/
theorem c7_missing_boundary_skips_epoch {cvote : VotePredicate} {st : Store} {e : Nat}
    {es : List Nat} {rules : List RuleState}
    (h : st.blockBySlot (epoch_to_slot e) = none ∨
      ((st.blockBySlot (epoch_to_slot e)).isSome = true ∧
        st.blockBySlot (epoch_to_slot (e - 1)) = none)) :
    epochsLoop cvote st (e :: es) rules =
      (skipTrace st e ++ (epochsLoop cvote st es rules).1,
       (epochsLoop cvote st es rules).2.1,
       (epochsLoop cvote st es rules).2.2) := by
  rcases h with hnone | ⟨hsome, hnone1⟩
  · have hc : confEpoch cvote st e rules =
        ([Ev.dbRead (Key.block_slot (epoch_to_slot e))], [], .ok rules) := by
      simp [confEpoch, hnone]
    simp [epochsLoop, hc, skipTrace, hnone]
  · obtain ⟨rE, hrE⟩ := Option.isSome_iff_exists.mp hsome
    have hc : confEpoch cvote st e rules =
        ([Ev.dbRead (Key.block_slot (epoch_to_slot e)),
          Ev.dbRead (Key.block_slot (epoch_to_slot (e - 1)))], [], .ok rules) := by
      simp [confEpoch, hrE, hnone1]
    simp [epochsLoop, hc, skipTrace, hrE]

/-- Claim C5: whenever the stored `sync_progress` (0 when absent) is smaller than the
coerced `max_slot`, the evaluator terminates with a "Sync is not complete" error
before instantiating any rule state or emitting any LEDGER record; the only store
access is the `sync_progress` read. -/
theorem c5_sync_incomplete_refusal {cvote : VotePredicate} {st : Store}
    {quorums : List Rat} {gap now maxs : Nat}
    (h : (st.syncProgress).getD 0 < coercedMax gap now maxs) :
    confMain cvote st quorums gap now maxs =
      ⟨[Ev.dbRead Key.sync_progress], [], .error "Sync is not complete"⟩ := by
  simp [confMain, h]

/-- On a store with the epoch-boundary roots present, their `block_{r}` entry present,
but no `chain_{r}` entries, an evaluator epoch dies at the first chain lookup with the
`.expect` message of confrule/mod.rs line 102. -/
theorem confEpoch_chain_missing {cvote : VotePredicate} {st : Store} {e : Nat}
    {rules : List RuleState} {rE rEm1 : Root} {bEm1 : Block}
    (h1 : st.blockBySlot (epoch_to_slot e) = some rE)
    (h2 : st.blockBySlot (epoch_to_slot (e - 1)) = some rEm1)
    (h3 : st.blockByRoot rEm1 = some bEm1)
    (h4 : st.chain rE = none) :
    confEpoch cvote st e rules =
      ([Ev.dbRead (Key.block_slot (epoch_to_slot e)),
        Ev.dbRead (Key.block_slot (epoch_to_slot (e - 1))),
        Ev.dbRead (Key.block_root rEm1), Ev.dbRead (Key.chain rE)], [],
       .error "Chain of block-roots for blkroot_e not found") := by
  simp [confEpoch, h1, h2, h3, h4]

/-- Claim C2: the archiver writes no `chain_{r}` entries (its chain construction is
disabled), yet for every evaluator epoch whose two boundary roots are present the
evaluator requires those entries; consequently, on a store produced solely by this
archiver, every such epoch's evaluation fails at the chain lookup. -/
theorem c2_chain_entries_never_written :
    (∀ (api : Api) (gap now mins maxs : Nat) (st : Store) (r : SyncResult),
      syncMain api gap now mins maxs st = .ok r → r.store.chain = st.chain) ∧
    (∀ (cvote : VotePredicate) (st : Store) (e : Nat) (rules : List RuleState),
      Produced st →
      (st.blockBySlot (epoch_to_slot e)).isSome = true →
      (st.blockBySlot (epoch_to_slot (e - 1))).isSome = true →
      ∃ tr, confEpoch cvote st e rules =
        (tr, [], .error "Chain of block-roots for blkroot_e not found")) := by
  constructor
  · intro api gap now mins maxs st r h
    exact (syncMain_chain_syncProgress h).1
  · intro cvote st e rules hp hse hsem1
    obtain ⟨rE, hrE⟩ := Option.isSome_iff_exists.mp hse
    obtain ⟨rEm1, hrEm1⟩ := Option.isSome_iff_exists.mp hsem1
    obtain ⟨bEm1, hbEm1⟩ :=
      Option.isSome_iff_exists.mp (produced_blockConsistent hp _ _ hrEm1)
    exact ⟨_, confEpoch_chain_missing hrE hrEm1 hbEm1 (produced_chain_none hp rE)⟩

/-- Claim C9: if every slot in the iterated range already has its `slot_{s}_synched`
marker, a re-run of the archiver issues no API requests and performs no store writes;
the only store accesses are the marker reads, and the store is returned unchanged. -/
theorem c9_rerun_is_read_only {api : Api} {gap now mins maxs : Nat} {st : Store}
    (h : ∀ x ∈ syncSlotsList gap now mins maxs, (st.slotSynched x).isSome = true) :
    syncMain api gap now mins maxs st =
      .ok ⟨st,
        (syncSlotsList gap now mins maxs).map (fun x => Ev.dbRead (Key.slot_synched x)),
        decide (maxs < mins)⟩ := by
  unfold syncMain
  rw [syncSlots_all_synched h]
  simp

/-- Claim C10: called with `max_slot < min_slot` such that the coerced bounds leave an
empty loop, the archiver logs the range error but still returns success, with no API
requests and no store accesses at all. -/
theorem c10_reversed_range_no_op (api : Api) (gap now mins maxs : Nat) (st : Store)
    (h1 : maxs < mins) (h2 : coercedMax gap now maxs + 1 ≤ coercedMin mins) :
    syncMain api gap now mins maxs st = .ok ⟨st, [], true⟩ := by
  have hlist : syncSlotsList gap now mins maxs = [] := by
    unfold syncSlotsList
    have hz : coercedMax gap now maxs + 1 - coercedMin mins = 0 := by omega
    rw [hz]
    rfl
  unfold syncMain
  rw [hlist]
  simp [syncSlots, h1]

theorem boundary_mreb (s : Nat) :
    is_epoch_boundary_slot (most_recent_epoch_boundary_slot_for_slot s) = true := by
  simp [most_recent_epoch_boundary_slot_for_slot, is_epoch_boundary_slot, epoch_to_slot,
    Nat.mul_mod_left]

/-- Counterexample to claim C4 as stated: at `gap = 0`, `now_slot = 1000000`,
`min_slot = 0`, `max_slot = 64`, the iterated range is `0, ..., 64` — the coerced
`max_slot` is incremented by one slot, not by one `SLOTS_PER_EPOCH` (which would put
`64 + 32 = 96` in reach of the loop). -/
theorem c4_cex_increment_is_one_slot :
    syncSlotsList 0 1000000 0 64 = List.range' 0 (coercedMax 0 1000000 64 + 1) ∧
    coercedMax 0 1000000 64 + 1 = 65 ∧ 65 ≠ 64 + SLOTS_PER_EPOCH ∧
    (64 + SLOTS_PER_EPOCH) ∉ syncSlotsList 0 1000000 0 64 ∧
    64 ∈ syncSlotsList 0 1000000 0 64 := by
  refine ⟨by decide, by decide, by decide, by decide, by decide⟩

/-- Claim C4 (amended): after `max_slot` is capped at `now_slot - GAP` and both bounds
are coerced down to epoch boundaries, `max_slot` is incremented by ONE SLOT, so the
half-open iterated range includes the epoch-boundary slot that closes the last
analyzed epoch (the boundary of the capped bound's epoch). -/
theorem c4_range_includes_closing_boundary (gap now mins maxs : Nat)
    (h : coercedMin mins ≤ coercedMax gap now maxs) :
    coercedMax gap now maxs ∈ syncSlotsList gap now mins maxs ∧
    is_epoch_boundary_slot (coercedMax gap now maxs) = true ∧
    slot_to_epoch (coercedMax gap now maxs) = slot_to_epoch (capMax gap now maxs) := by
  refine ⟨?_, ?_, ?_⟩
  · unfold syncSlotsList
    rw [List.mem_range'_1]
    omega
  · simp only [coercedMax]
    split
    · exact boundary_mreb _
    · rename_i hne
      rw [not_ne_iff.mp hne]
      exact boundary_mreb _
  · simp only [coercedMax]
    split
    · exact epoch_of_boundary rfl
    · rfl

/-- Counterexample to claim C3 as stated: after a crash between the iterations for
slots 31 and 32 and a successful resumed run over the same range, epoch 1 lies in the
archived range and slot 31 ≤ `epoch_to_slot 1` is non-empty, yet `ebb_1_source_slot`
is absent — the resumed run starts with `last_nonempty_slot = None` and skips the
synched slots without re-learning it. -/
theorem c3_cex_resume_loses_backfill :
    runResume.isOk = true ∧ stResume.ebbSourceSlot 1 = none ∧
    (apiB.blockroot_by_slot 31).isSome = true ∧ 31 ≤ epoch_to_slot 1 ∧
    (stResume.slotSynched 32).isSome = true ∧ apiB.blockroot_by_slot 32 = none := by
  refine ⟨by decide, by decide, by decide, by decide, by decide, by decide⟩

/-- Claim C3 (amended): after a FRESH archiver run from the empty store with
`min_slot = 0`, for every epoch `e` in the archived range with at least one non-empty
slot at or before `epoch_to_slot e`, the key `ebb_{e}_source_slot` holds the most
recent non-empty slot at or before `epoch_to_slot e`; in particular its value is
`≤ epoch_to_slot e`, and when the boundary slot itself is empty it is the most recent
non-empty prior slot. -/
theorem c3_fresh_run_ebb_correct {api : Api} {gap now maxs : Nat} {r : SyncResult}
    (hrun : syncMain api gap now 0 maxs emptyStore = .ok r) (e : Nat)
    (hin : epoch_to_slot e ≤ coercedMax gap now maxs)
    (hne : ∃ s2, s2 ≤ epoch_to_slot e ∧ (api.blockroot_by_slot s2).isSome = true) :
    ∃ v, r.store.ebbSourceSlot e = some v ∧ v ≤ epoch_to_slot e ∧
      (api.blockroot_by_slot v).isSome = true ∧
      ∀ s2, v < s2 → s2 ≤ epoch_to_slot e → api.blockroot_by_slot s2 = none := by
  unfold syncMain at hrun
  split at hrun
  · simp at hrun
  · rename_i s hs
    simp only [Except.ok.injEq] at hrun
    subst hrun
    have hlist : syncSlotsList gap now 0 maxs =
        List.range (coercedMax gap now maxs + 1) := by
      unfold syncSlotsList
      have h0 : coercedMin 0 = 0 := by decide
      rw [h0, Nat.sub_zero, List.range_eq_range']
    rw [hlist] at hs
    have hinv := syncSlots_range_inv api (coercedMax gap now maxs + 1) s hs
    have hebb := hinv.2.1 e (by omega)
    have hsome := lnu_of_exists hne
    obtain ⟨v, hv⟩ := Option.isSome_iff_exists.mp hsome
    refine ⟨v, ?_, lnu_le hv, lnu_nonempty hv, lnu_maximal hv⟩
    rw [hebb, hv]

/-- Claim C1 evaluated at its own scenario (S1): a successful fresh archiver run over
slots 0..=64 with every slot non-empty leaves the store WITHOUT any `sync_progress`
entry — the archiver code never writes that key, although spec §4.3 and the
evaluator's gate (which reads it from a read-only store) require it. -/
theorem c1_sync_progress_never_written :
    run65.isOk = true ∧ (st65.slotSynched 64).isSome = true ∧
    st65.syncProgress = none ∧ st65.syncProgress ≠ some 64 := by
  have hnone : st65.syncProgress = none := by
    unfold st65
    cases h : run65 with
    | ok r =>
      unfold run65 at h
      exact (syncMain_chain_syncProgress h).2
    | error e => rfl
  refine ⟨by decide, by decide, hnone, by rw [hnone]; simp⟩

theorem stWF_chain_some {r : Root} {c : List Root} (h : stWF.chain r = some c) :
    (r = HEADER_GENESIS_ROOT ∧ c = [HEADER_GENESIS_ROOT]) ∨
    (r = "0xa" ∧ c = [HEADER_GENESIS_ROOT, "0xa"]) := by
  simp only [stWF] at h
  by_cases e1 : r = HEADER_GENESIS_ROOT
  · simp only [e1, if_true, Option.some.injEq] at h
    exact Or.inl ⟨e1, h.symm⟩
  · simp only [e1, if_false] at h
    by_cases e2 : r = "0xa"
    · simp only [e2, if_true, Option.some.injEq] at h
      exact Or.inr ⟨e2, h.symm⟩
    · simp [e2] at h

theorem stWF_block_some {r : Root} {b : Block} (h : stWF.blockByRoot r = some b) :
    (r = HEADER_GENESIS_ROOT ∧ b = blkG) ∨ (r = "0xa" ∧ b = blkA) := by
  simp only [stWF] at h
  by_cases e1 : r = HEADER_GENESIS_ROOT
  · simp only [e1, if_true, Option.some.injEq] at h
    exact Or.inl ⟨e1, h.symm⟩
  · simp only [e1, if_false] at h
    by_cases e2 : r = "0xa"
    · simp only [e2, if_true, Option.some.injEq] at h
      exact Or.inr ⟨e2, h.symm⟩
    · simp [e2] at h

theorem stWF_chainSlotMono : chainSlotMono stWF := by
  intro r1 r2 c1 c2 b1 b2 h1 h2 hp hb1 hb2
  rcases stWF_chain_some h1 with ⟨hr1, hc1⟩ | ⟨hr1, hc1⟩ <;>
    rcases stWF_chain_some h2 with ⟨hr2, hc2⟩ | ⟨hr2, hc2⟩ <;>
    rcases stWF_block_some hb1 with ⟨hr1', hb1'⟩ | ⟨hr1', hb1'⟩ <;>
    rcases stWF_block_some hb2 with ⟨hr2', hb2'⟩ | ⟨hr2', hb2'⟩ <;>
    subst hc1 <;> subst hc2 <;> subst hb1' <;> subst hb2' <;>
    rw [hr1] at hr1' <;> rw [hr2] at hr2' <;>
    first
    | (exact absurd hr1' (by decide))
    | (exact absurd hr2' (by decide))
    | (revert hp; decide)

theorem confW_eq :
    confEpoch cvoteTrue stWF 1 rulesW = (confW.1, confW.2.1, Except.ok rulesW') := rfl

theorem rulesW_ok : ∀ ru ∈ rulesW, RuleOk stWF ru := by
  intro ru hru
  simp only [rulesW, List.mem_singleton] at hru
  subst hru
  exact ⟨blkG, by decide, by decide⟩

/-- Witness for claim C6 at the concrete store `stWF` and epoch 1. -/
theorem c6_witness :
    chainSlotMono stWF ∧ (∀ ru ∈ rulesW, RuleOk stWF ru) ∧
    (confEpoch cvoteTrue stWF 1 rulesW = (confW.1, confW.2.1, .ok rulesW')) ∧
    (rulesW'.length = rulesW.length ∧
      ∀ i (hi : i < rulesW.length) (hi' : i < rulesW'.length),
        (rulesW'.get ⟨i, hi'⟩ = rulesW.get ⟨i, hi⟩) ∨
        (∃ cOld cNew, stWF.chain ((rulesW.get ⟨i, hi⟩).tip_blkroot) = some cOld ∧
          stWF.chain ((rulesW'.get ⟨i, hi'⟩).tip_blkroot) = some cNew ∧
          cOld.isPrefixOf cNew = true ∧
          (rulesW.get ⟨i, hi⟩).tip_slot ≤ (rulesW'.get ⟨i, hi'⟩).tip_slot ∧
          RuleOk stWF (rulesW'.get ⟨i, hi'⟩))) :=
  ⟨stWF_chainSlotMono, rulesW_ok, confW_eq,
   c6_rule_monotonicity stWF_chainSlotMono rulesW_ok confW_eq⟩

/-- Witness for claim C8 at the concrete store `stWF` and epoch 1, where the stored
finalized checkpoint root is the all-zero sentinel. -/
theorem c8_witness :
    (stWF.blockBySlot (epoch_to_slot 1) = some "0xa") ∧
    (stWF.blockBySlot (epoch_to_slot 0) = some HEADER_GENESIS_ROOT) ∧
    (stWF.blockByRoot HEADER_GENESIS_ROOT = some blkG) ∧
    (stWF.stateFinality blkG.state_root =
      some (Checkpoint.mk 0 ZERO_ROOT, Checkpoint.mk 0 ZERO_ROOT,
        Checkpoint.mk 0 ZERO_ROOT)) ∧
    ((Checkpoint.mk 0 ZERO_ROOT).root = ZERO_ROOT) ∧
    (Ev.dbRead (Key.block_root
      (if (Checkpoint.mk 0 ZERO_ROOT).root = ZERO_ROOT then HEADER_GENESIS_ROOT
       else (Checkpoint.mk 0 ZERO_ROOT).root)) ∈ confW.1 ∧
     Ev.dbRead (Key.chain
      (if (Checkpoint.mk 0 ZERO_ROOT).root = ZERO_ROOT then HEADER_GENESIS_ROOT
       else (Checkpoint.mk 0 ZERO_ROOT).root)) ∈ confW.1 ∧
     ∀ i (hi : i < rulesW.length) (hi' : i < rulesW'.length),
       rulesW'.get ⟨i, hi'⟩ ≠ rulesW.get ⟨i, hi⟩ →
       (rulesW'.get ⟨i, hi'⟩).tip_blkroot =
         (if (Checkpoint.mk 0 ZERO_ROOT).root = ZERO_ROOT then HEADER_GENESIS_ROOT
          else (Checkpoint.mk 0 ZERO_ROOT).root)) :=
  ⟨rfl, rfl, rfl, rfl, rfl,
   @c8_zero_root_sentinel cvoteTrue stWF 1 rulesW confW.1 confW.2.1 rulesW'
     "0xa" HEADER_GENESIS_ROOT blkG (Checkpoint.mk 0 ZERO_ROOT)
     (Checkpoint.mk 0 ZERO_ROOT) (Checkpoint.mk 0 ZERO_ROOT)
     rfl rfl rfl rfl confW_eq⟩

/-- Witness for claim C7: on the empty store, epoch 1 is skipped and the loop
continues. -/
theorem c7_witness :
    emptyStore.blockBySlot (epoch_to_slot 1) = none ∧
    epochsLoop cvoteTrue emptyStore [1] [] =
      (skipTrace emptyStore 1 ++ (epochsLoop cvoteTrue emptyStore [] []).1,
       (epochsLoop cvoteTrue emptyStore [] []).2.1,
       (epochsLoop cvoteTrue emptyStore [] []).2.2) :=
  ⟨rfl, c7_missing_boundary_skips_epoch (Or.inl rfl)⟩

/-- Witness for claim C5 at `sync_progress = 31`, `max_slot = 64` (scenario S5). -/
theorem c5_witness :
    (stS5.syncProgress).getD 0 < coercedMax 0 1000000 64 ∧
    confMain cvoteTrue stS5 [1] 0 1000000 64 =
      ⟨[Ev.dbRead Key.sync_progress], [], .error "Sync is not complete"⟩ :=
  ⟨by decide, c5_sync_incomplete_refusal (by decide)⟩

theorem stA_produced : Produced stA :=
  Produced.step apiA 0 1000000 0 32 emptyStore resA Produced.empty rfl

/-- Witness for claim C2: on the concrete archiver-produced store `stA`, whose epoch-1
boundary roots are both present, the epoch-1 evaluation fails at the chain lookup. -/
theorem c2_witness :
    Produced stA ∧ (stA.blockBySlot (epoch_to_slot 1)).isSome = true ∧
    (stA.blockBySlot (epoch_to_slot 0)).isSome = true ∧
    ∃ tr, confEpoch cvoteTrue stA 1 [] =
      (tr, [], .error "Chain of block-roots for blkroot_e not found") :=
  ⟨stA_produced, by decide, by decide,
   c2_chain_entries_never_written.2 cvoteTrue stA 1 [] stA_produced (by decide) (by decide)⟩

/-- Witness for claim C9: re-running the archiver over `[0, 0]` on the store left by a
successful run over the same range only reads the one marker and changes nothing. -/
theorem c9_witness :
    (∀ x ∈ syncSlotsList 0 1000000 0 0, (stC.slotSynched x).isSome = true) ∧
    syncMain apiA 0 1000000 0 0 stC =
      .ok ⟨stC,
        (syncSlotsList 0 1000000 0 0).map (fun x => Ev.dbRead (Key.slot_synched x)),
        decide ((0 : Nat) < 0)⟩ :=
  ⟨by decide, c9_rerun_is_read_only (by decide)⟩

/-- Witness for claim C10 at `min_slot = 32`, `max_slot = 0`. -/
theorem c10_witness :
    (0 : Nat) < 32 ∧ coercedMax 0 1000000 0 + 1 ≤ coercedMin 32 ∧
    syncMain apiA 0 1000000 32 0 emptyStore = .ok ⟨emptyStore, [], true⟩ :=
  ⟨by decide, by decide, c10_reversed_range_no_op apiA 0 1000000 32 0 emptyStore
    (by decide) (by decide)⟩

/-- Witness for claim C4 (amended) at `gap = 0`, `now = 1000000`, bounds `[0, 64]`. -/
theorem c4_witness :
    coercedMin 0 ≤ coercedMax 0 1000000 64 ∧
    (coercedMax 0 1000000 64 ∈ syncSlotsList 0 1000000 0 64 ∧
     is_epoch_boundary_slot (coercedMax 0 1000000 64) = true ∧
     slot_to_epoch (coercedMax 0 1000000 64) = slot_to_epoch (capMax 0 1000000 64)) :=
  ⟨by decide, c4_range_includes_closing_boundary 0 1000000 0 64 (by decide)⟩

theorem resB_eq : syncMain apiB 0 1000000 0 32 emptyStore = .ok resB := rfl

/-- Witness for claim C3 (amended): after the fresh run with slot 32 empty, the
epoch-1 boundary entry points at slot 31, the most recent non-empty slot. -/
theorem c3_witness :
    (syncMain apiB 0 1000000 0 32 emptyStore = .ok resB) ∧
    epoch_to_slot 1 ≤ coercedMax 0 1000000 32 ∧
    (31 ≤ epoch_to_slot 1 ∧ (apiB.blockroot_by_slot 31).isSome = true) ∧
    ∃ v, resB.store.ebbSourceSlot 1 = some v ∧ v ≤ epoch_to_slot 1 ∧
      (apiB.blockroot_by_slot v).isSome = true ∧
      ∀ s2, v < s2 → s2 ≤ epoch_to_slot 1 → apiB.blockroot_by_slot s2 = none :=
  ⟨resB_eq, by decide, ⟨by decide, by decide⟩,
   c3_fresh_run_ebb_correct resB_eq 1 (by decide) ⟨31, by decide, by decide⟩⟩

end FlexEth
